import Mathlib

/-!
# Verification of the `movie` actor library against its specification

Shallow embedding of the two core components of the `movie` repository:

* the attribute-block parser of `movie_derive/src/lib.rs` (`actor_internal`),
  modelled character-for-character over `List Char` (the procedural macro
  receives `input.to_string()` of a token stream; strings are modelled as
  character lists, and Rust byte offsets as character offsets, which agree on
  the ASCII inputs at hand);
* the owner-facing `Handle` of `movie_utils/src/lib.rs` together with the
  std `mpsc` channel behaviour it relies on, and the run loop that
  `actor_internal` emits (PART FOUR of `movie_derive/src/lib.rs`).

A Rust `panic!` (an `unwrap` of an `Err`, or an out-of-range slice) is
modelled by `Option.none`.
-/

namespace Movie

/-- Character list of a string literal (the embedding's string type). -/
def chars (s : String) : List Char := s.data

/-- Rust `str::find`: offset of the first occurrence of `pat` in the string,
scanning left to right (`movie_derive` uses `input.find(search_str)`). -/
def findFrom (pat : List Char) : List Char → Option Nat
  | [] => if pat.isEmpty then some 0 else none
  | c :: rest =>
      if pat.isPrefixOf (c :: rest) then some 0
      else (findFrom pat rest).map (· + 1)

/-- Rust `str::contains` (used on `attrs["public_visibility"]`). -/
def containsSub (s pat : List Char) : Bool := (findFrom pat s).isSome

/-- The fixed attribute vocabulary with its default values,
from `supported_attributes` in `actor_internal` (lines 33-48). -/
def supportedAttributes : List (List Char × List Char) :=
  [ (chars "public_visibility", chars ""),
    (chars "docs", chars ""),
    (chars "input", chars ""),
    (chars "input_derive", chars ""),
    (chars "data", chars ""),
    (chars "on_init", chars ""),
    (chars "on_message", chars ""),
    (chars "tick_interval", chars "100"),
    (chars "on_tick", chars ""),
    (chars "on_stop", chars ""),
    (chars "spawner", chars "std::thread::spawn"),
    (chars "spawner_return_type", chars "std::thread::JoinHandle<()>"),
    (chars "custom_code", chars "") ]

/-- The implicit leading section's key. -/
def nameKey : List Char := chars "name"

/-- The eight whitespace renderings of a keyword delimiter tried by
`actor_internal` (the `search_strings` array, lines 55-64), in source order. -/
def searchStrings (attr : List Char) : List (List Char) :=
  [ chars "\n" ++ attr ++ chars " :\n",
    chars " "  ++ attr ++ chars " :\n",
    chars "\n" ++ attr ++ chars " : ",
    chars " "  ++ attr ++ chars " : ",
    chars "\n" ++ attr ++ chars "\n:\n",
    chars " "  ++ attr ++ chars "\n:\n",
    chars "\n" ++ attr ++ chars "\n: ",
    chars " "  ++ attr ++ chars "\n: " ]

/-- The inner loop of PART ONE: try the pattern variants in list order and
stop at the first variant that occurs anywhere in the input, recording
`(pos, pos + search_str.len())`. -/
def firstMatch (input : List Char) : List (List Char) → Option (Nat × Nat)
  | [] => none
  | v :: vs =>
      match findFrom v input with
      | some p => some (p, p + v.length)
      | none => firstMatch input vs

/-- Location of one keyword's section: `(start, content-start)` if any of its
delimiter renderings occurs in the input. -/
def locateAttr (input attr : List Char) : Option (Nat × Nat) :=
  firstMatch input (searchStrings attr)

/-- A located section: `(start, keyword, content-start)`, as in the
`locations` vector of `actor_internal`. -/
abbrev Loc := Nat × List Char × Nat

/-- Keyword of a located section. -/
def locKey (l : Loc) : List Char := l.2.1

/-- PART ONE: the `locations` vector, seeded with the implicit `name` section
at offset 0 and extended with one entry per located keyword, in vocabulary
order. -/
def locations (input : List Char) : List Loc :=
  (0, nameKey, 0) ::
    supportedAttributes.filterMap (fun ad =>
      (locateAttr input ad.1).map (fun pc => (pc.1, ad.1, pc.2)))

/-- Byte-wise `<` on Rust `&str`, at character level. -/
def listCharLt : List Char → List Char → Bool
  | _, [] => false
  | [], _ :: _ => true
  | a :: as, b :: bs =>
      if a < b then true else if b < a then false else listCharLt as bs

/-- Lexicographic `≤` on location triples: Rust `Ord` for
`(usize, &str, usize)`, used by `locations.sort_unstable()`. -/
def locLe (x y : Loc) : Bool :=
  if x.1 < y.1 then true
  else if y.1 < x.1 then false
  else if listCharLt x.2.1 y.2.1 then true
  else if listCharLt y.2.1 x.2.1 then false
  else Nat.ble x.2.2 y.2.2

/-- Insert into a `locLe`-sorted list. -/
def insertSorted (x : Loc) : List Loc → List Loc
  | [] => [x]
  | y :: ys => if locLe x y then x :: y :: ys else y :: insertSorted x ys

/-- `locations.sort_unstable()`: ascending lexicographic sort of the
location triples (insertion sort; the order is total and all triples are
distinct, so this agrees with Rust's unstable sort). -/
def sortLocs : List Loc → List Loc
  | [] => []
  | x :: xs => insertSorted x (sortLocs xs)

/-- Rust slice `&input[a..b]` at character level (indices assumed in range;
the range checks live in `segmentVals`). -/
def extractSeg (input : List Char) (a b : Nat) : List Char :=
  (input.take b).drop a

/-- PART TWO, value extraction: walk the sorted locations; every section's
value is the text from its content-start to the next section's start, the
last section extending to end-of-input.  Rust panics (`none`) when a slice
range is invalid (`start > end` or `end > len`), which happens only for
overlapping sections. -/
def segmentVals (input : List Char) : List Loc → Option (List (List Char × List Char))
  | [] => some []
  | [l] =>
      if l.2.2 ≤ input.length then some [(l.2.1, input.drop l.2.2)] else none
  | l :: l' :: rest =>
      if l.2.2 ≤ l'.1 ∧ l'.1 ≤ input.length then
        (segmentVals input (l' :: rest)).map
          (fun tl => (l.2.1, extractSeg input l.2.2 l'.1) :: tl)
      else none

/-- Association-list model of the `attrs: HashMap<&str, String>`:
`insert` replaces the binding of an existing key and otherwise appends. -/
def alistInsert : List (List Char × List Char) → List Char → List Char →
    List (List Char × List Char)
  | [], a, v => [(a, v)]
  | p :: ps, a, v => if p.1 = a then (a, v) :: ps else p :: alistInsert ps a v

/-- Lookup in the association-list model (first binding wins). -/
def alookup : List (List Char × List Char) → List Char → Option (List Char)
  | [], _ => none
  | p :: ps, k => if p.1 = k then some p.2 else alookup ps k

/-- Total lookup used where Rust indexes the map (`attrs[...]`), which in
`actor_internal` only happens after default filling, when every supported
key is present. -/
def alookupD (m : List (List Char × List Char)) (k : List Char) : List Char :=
  (alookup m k).getD []

/-- PART TWO, map construction: insert the extracted values in ascending
section order. -/
def buildMap (ps : List (List Char × List Char)) : List (List Char × List Char) :=
  ps.foldl (fun m p => alistInsert m p.1 p.2) []

/-- `entry(..).or_insert(..)`: insert only when the key is absent. -/
def insertIfAbsent (m : List (List Char × List Char)) (a v : List Char) :
    List (List Char × List Char) :=
  if (alookup m a).isSome then m else m ++ [(a, v)]

/-- PART THREE: give every supported attribute missing from the map its
default value. -/
def fillDefaults (m : List (List Char × List Char)) : List (List Char × List Char) :=
  supportedAttributes.foldl (fun acc ad => insertIfAbsent acc ad.1 ad.2) m

/-- PARTs ONE to THREE applied to an explicit location list. -/
def resolveLocs (input : List Char) (locs : List Loc) :
    Option (List (List Char × List Char)) :=
  (segmentVals input locs).map (fun ps => fillDefaults (buildMap ps))

/-- The whole attribute-block parser of `actor_internal`: locate, sort,
segment, default-fill. -/
def parseAttrs (input : List Char) :
    Option (List (List Char × List Char)) :=
  resolveLocs input (sortLocs (locations input))

/-- The section values read off a sorted location list, as the spec
describes segmentation: each section's content is the text from its
content-start to the next section's start, the last section extending to
end-of-input.  `segmentVals` produces exactly this list whenever no slice
panics (`segmentVals_ok` below). -/
def segmentedPairs (input : List Char) : List Loc → List (List Char × List Char)
  | [] => []
  | [l] => [(l.2.1, input.drop l.2.2)]
  | l :: l' :: rest =>
      (l.2.1, extractSeg input l.2.2 l'.1) :: segmentedPairs input (l' :: rest)

/-- Slice-validity of a location list: every content-start is at most the
next section's start, and all offsets are within the input.  These are
precisely the conditions under which the Rust slicing in PART TWO does not
panic. -/
def locsOk (input : List Char) : List Loc → Prop
  | [] => True
  | [l] => l.2.2 ≤ input.length
  | l :: l' :: rest => (l.2.2 ≤ l'.1 ∧ l'.1 ≤ input.length) ∧ locsOk input (l' :: rest)

/-- `locsOk` is decidable, so witnesses can discharge it by evaluation. -/
def locsOkDec (input : List Char) : (ls : List Loc) → Decidable (locsOk input ls)
  | [] => .isTrue trivial
  | [l] => decidable_of_iff (l.2.2 ≤ input.length) (by simp [locsOk])
  | l :: l' :: rest =>
      have : Decidable (locsOk input (l' :: rest)) := locsOkDec input (l' :: rest)
      decidable_of_iff ((l.2.2 ≤ l'.1 ∧ l'.1 ≤ input.length) ∧ locsOk input (l' :: rest))
        (by simp [locsOk])

instance (input : List Char) (ls : List Loc) : Decidable (locsOk input ls) :=
  locsOkDec input ls

/-- Ascending start offsets, the order `sort_unstable` establishes. -/
def sortedByStart : List Loc → Prop
  | [] => True
  | [_] => True
  | a :: b :: rest => a.1 ≤ b.1 ∧ sortedByStart (b :: rest)

/-- `sortedByStart` is decidable. -/
def sortedByStartDec : (ls : List Loc) → Decidable (sortedByStart ls)
  | [] => .isTrue trivial
  | [_] => .isTrue trivial
  | a :: b :: rest =>
      have : Decidable (sortedByStart (b :: rest)) := sortedByStartDec (b :: rest)
      decidable_of_iff (a.1 ≤ b.1 ∧ sortedByStart (b :: rest)) (by simp [sortedByStart])

instance (ls : List Loc) : Decidable (sortedByStart ls) := sortedByStartDec ls

/-- The value the pipeline resolves for `name` from a sorted location list
whose head is the implicit `(0, name, 0)` entry: everything before the
earliest located keyword section, or the whole input when no keyword was
located. -/
def nameValue (input : List Char) (rest : List Loc) : List Char :=
  match rest with
  | [] => input
  | r :: _ => input.take r.1

/-- Whitespace, for the spec-side reading of the name rule. -/
def isWs (c : Char) : Bool := c == ' ' || c == '\n' || c == '\t' || c == '\r'

/-- Spec-side definition, following the spec's words: "the first
whitespace-delimited token is taken as the name".  Compared against the
code's positional name segment in claim C4. -/
def specFirstToken (input : List Char) : List Char :=
  (input.dropWhile isWs).takeWhile (fun c => !isWs c)

/-- Spec-side definition, following claim C9's words: the earliest offset at
which **any** of the given pattern variants occurs in the input. -/
def earliestMatchPos (input : List Char) (pats : List (List Char)) : Option Nat :=
  (pats.filterMap (fun p => findFrom p input)).foldl
    (fun acc x =>
      match acc with
      | none => some x
      | some a => some (Nat.min a x)) none

/-! ## Concrete inputs used by witnesses and counterexamples

All are character renderings of `actor!` attribute blocks after
`TokenStream::to_string()`, which separates tokens by single spaces (see
the source comment on line 21 of `movie_derive/src/lib.rs`). -/

/-- The spec's scenario input. -/
def exScenario : List Char := chars "A input : Ping , on_message : Ping => noop ,"

/-- An input whose leading segment holds two whitespace-delimited tokens. -/
def exNameTwoTokens : List Char := chars "A B input : Ping , on_message : Ping => noop ,"

/-- An input whose `input` section content is empty. -/
def exEmptyInput : List Char := chars "A input :\n on_message : P => () ,"

/-- An input where delimiter variant 1 of `input` occurs later in the text
than variant 4. -/
def exVariantOrder : List Char := chars "A input : X\ninput :\nY on_message : M => () ,"

/-- Three sections, `data` in the middle. -/
def exOrder1 : List Char := chars "A input : Ping ,\ndata : pub x : u32 ,\non_message : Ping => () ,"

/-- The same three sections with `data` last. -/
def exOrder2 : List Char := chars "A input : Ping ,\non_message : Ping => () ,\ndata : pub x : u32 ,"

/-- Only the required sections. -/
def exMinimal : List Char := chars "A input : Ping ,\non_message : Ping => () ,"

/-- `public_visibility` content `untrue` (contains `true` as a substring). -/
def exUntrue : List Char := chars "A public_visibility : untrue , input : P ,\non_message : P => () ,"

/-- `public_visibility` content `false`. -/
def exFalse : List Char := chars "A public_visibility : false , input : P ,\non_message : P => () ,"

/-- `public_visibility` content `true`. -/
def exPvTrue : List Char := chars "A public_visibility : true , input : P ,\non_message : P => () ,"

/-- The optional attribute keywords: the vocabulary minus the required
`input` and `on_message` (and minus the implicit `name`). -/
def optionalAttrKeys : List (List Char) :=
  [ chars "public_visibility", chars "docs", chars "input_derive", chars "data",
    chars "on_init", chars "tick_interval", chars "on_tick", chars "on_stop",
    chars "spawner", chars "spawner_return_type", chars "custom_code" ]

/-! ## PART FOUR: the generated scaffold -/

/-- The literal `"true"` tested by the `public_visibility` check. -/
def trueLit : List Char := chars "true"

/-- The `public_visibility` key. -/
def pvKey : List Char := chars "public_visibility"

/-- The prepared visibility string of PART FOUR (lines 114-118):
`"pub"` when the resolved `public_visibility` content contains `"true"`
anywhere, and the empty string otherwise. -/
def publicVisibilityStr (attrs : List (List Char × List Char)) : List Char :=
  if containsSub (alookupD attrs pvKey) trueLit then chars "pub" else chars ""

/-- The semantic content of the module emitted by PART FOUR: each
placeholder of the `format!` scaffold, in source order.  The surrounding
fixed program text is host-language code generation and carries no further
information. -/
structure GeneratedActor where
  docs : List Char
  visibility : List Char
  name : List Char
  customCode : List Char
  data : List Char
  inputDerive : List Char
  inputVariants : List Char
  onInit : List Char
  onMessage : List Char
  onStop : List Char
  onTick : List Char
  tickInterval : List Char
  spawner : List Char
  spawnerReturnType : List Char
deriving DecidableEq

/-- The `#[derive(..)]` line: present exactly when `input_derive` content is
non-empty (lines 119-123). -/
def inputDeriveStr (attrs : List (List Char × List Char)) : List Char :=
  if (alookupD attrs (chars "input_derive")).length > 0 then
    chars "#[derive(" ++ alookupD attrs (chars "input_derive") ++ chars ")]"
  else chars ""

/-- PART FOUR: fill the scaffold from the resolved attribute map. -/
def generate (attrs : List (List Char × List Char)) : GeneratedActor :=
  { docs := alookupD attrs (chars "docs")
    visibility := publicVisibilityStr attrs
    name := alookupD attrs nameKey
    customCode := alookupD attrs (chars "custom_code")
    data := alookupD attrs (chars "data")
    inputDerive := inputDeriveStr attrs
    inputVariants := alookupD attrs (chars "input")
    onInit := alookupD attrs (chars "on_init")
    onMessage := alookupD attrs (chars "on_message")
    onStop := alookupD attrs (chars "on_stop")
    onTick := alookupD attrs (chars "on_tick")
    tickInterval := alookupD attrs (chars "tick_interval")
    spawner := alookupD attrs (chars "spawner")
    spawnerReturnType := alookupD attrs (chars "spawner_return_type") }

/-- The generated module is public exactly when its visibility string is the
literal `pub`. -/
def moduleIsPublic (g : GeneratedActor) : Bool := g.visibility == chars "pub"

/-- The whole `actor_internal` pipeline: parse the attribute block, then
generate.  There is no error path between the two stages; the only failures
are the slice panics modelled inside `segmentVals`. -/
def actorInternal (input : List Char) : Option GeneratedActor :=
  (parseAttrs input).map generate

/-! ## The run loop of the generated actor

One iteration of the emitted `while running` loop (lines 154-174 of the
scaffold), recorded as the sequence of observable events: first every
message currently queued is dispatched in arrival order, then the stop
channel is polled once (running `on_stop` when a stop request is present),
then `on_tick` runs, then the thread sleeps for `tick_interval`
milliseconds.  Note the emitted code runs `{ on_tick };` unconditionally
after the kill check: there is no `else`. -/

/-- Observable events of one loop iteration. -/
inductive Event (μ : Type) where
  | msg (m : μ)
  | stopPoll (got : Bool)
  | stopHook
  | tickHook
  | sleepEv
deriving DecidableEq

/-- One iteration of the generated run loop: `mb` is the mailbox content
drained by the inner `while let Ok(message) = rx_ota.try_recv()` loop and
`kp` tells whether `rx_kill.try_recv()` yields a pending stop request. -/
def loopIteration {μ : Type} (mb : List μ) (kp : Bool) : List (Event μ) :=
  mb.map Event.msg ++
    (if kp then [Event.stopPoll true, Event.stopHook] else [Event.stopPoll false]) ++
    [Event.tickHook, Event.sleepEv]

/-- `e₁` occurs strictly before `e₂` in the event list. -/
def eventBefore {μ : Type} (l : List (Event μ)) (e₁ e₂ : Event μ) : Prop :=
  ∃ i j, i < j ∧ l.get? i = some e₁ ∧ l.get? j = some e₂

/-! ## The owner-facing `Handle` (movie_utils) -/

/-- Owner-to-actor side of a `std::sync::mpsc` channel: the queued values
and whether the receiving half is still alive.  When the actor's execution
context terminates, the receiver held by its closure is dropped and
`receiverAlive` becomes false. -/
structure Channel (α : Type) where
  queue : List α
  receiverAlive : Bool
deriving DecidableEq

/-- `std::sync::mpsc::Sender::send`: enqueues and returns `Ok` while the
receiver is alive, returns `Err(SendError)` once the receiver was dropped
(std's documented behaviour, the environment of `Handle::send`). -/
def senderSend {α : Type} (ch : Channel α) (m : α) : Except Unit (Channel α) :=
  if ch.receiverAlive then .ok { ch with queue := ch.queue ++ [m] }
  else .error ()

/-- `Handle::send` from `movie_utils/src/lib.rs` (lines 38-40):
`self.tx.send(msg).unwrap()`.  The `unwrap` of an `Err` is a panic,
modelled as `none`. -/
def handleSend {α : Type} (ch : Channel α) (m : α) : Option (Channel α) :=
  match senderSend ch m with
  | .ok ch' => some ch'
  | .error _ => none

/-! ## Association-list lemmas -/

theorem alookup_insert_self (m : List (List Char × List Char)) (a v : List Char) :
    alookup (alistInsert m a v) a = some v := by
  induction m with
  | nil => simp [alistInsert, alookup]
  | cons p ps ih =>
      by_cases h : p.1 = a
      · simp [alistInsert, h, alookup]
      · simp [alistInsert, h, alookup, ih]

theorem alookup_insert_other (m : List (List Char × List Char)) (a v k : List Char)
    (hk : k ≠ a) : alookup (alistInsert m a v) k = alookup m k := by
  have hak : a ≠ k := fun h => hk h.symm
  induction m with
  | nil => simp [alistInsert, alookup, hak]
  | cons p ps ih =>
      by_cases h : p.1 = a
      · have hpk : p.1 ≠ k := by rw [h]; exact hak
        simp [alistInsert, h, alookup, hak, hpk]
      · simp only [alistInsert, h, if_false, alookup]
        by_cases h2 : p.1 = k
        · simp [h2]
        · simp [h2, ih]

theorem alookup_eq_none_iff (ps : List (List Char × List Char)) (k : List Char) :
    alookup ps k = none ↔ k ∉ ps.map Prod.fst := by
  induction ps with
  | nil => simp [alookup]
  | cons p ps ih =>
      by_cases h : p.1 = k
      · simp [alookup, h]
      · simp [alookup, h, ih, Ne.symm h]

theorem alookup_some_of_mem (ps : List (List Char × List Char)) (k v : List Char)
    (hnd : (ps.map Prod.fst).Nodup) (hmem : (k, v) ∈ ps) : alookup ps k = some v := by
  induction ps with
  | nil => cases hmem
  | cons p ps ih =>
      rcases List.mem_cons.mp hmem with h | h
      · simp [alookup, ← h]
      · have hk : k ∈ ps.map Prod.fst :=
          List.mem_map.mpr ⟨(k, v), h, rfl⟩
        have hp : p.1 ∉ ps.map Prod.fst := (List.nodup_cons.mp hnd).1
        have : p.1 ≠ k := fun hh => hp (hh ▸ hk)
        simp [alookup, this, ih (List.nodup_cons.mp hnd).2 h]

theorem mem_of_alookup_some (ps : List (List Char × List Char)) (k v : List Char)
    (h : alookup ps k = some v) : (k, v) ∈ ps := by
  induction ps with
  | nil => simp [alookup] at h
  | cons p ps ih =>
      by_cases hh : p.1 = k
      · have h2 : p.2 = v := by simpa [alookup, hh] using h
        have hp : p = (k, v) := by
          cases p with
          | mk a b => simp_all
        exact List.mem_cons.mpr (Or.inl hp.symm)
      · simp only [alookup, hh, if_false] at h
        exact List.mem_cons_of_mem _ (ih h)

theorem alookup_perm (ps qs : List (List Char × List Char)) (k : List Char)
    (hperm : List.Perm ps qs) (hnd : (ps.map Prod.fst).Nodup) :
    alookup ps k = alookup qs k := by
  cases h : alookup ps k with
  | none =>
      have hk := (alookup_eq_none_iff ps k).mp h
      have : k ∉ qs.map Prod.fst := fun hin =>
        hk ((hperm.map Prod.fst).mem_iff.mpr hin)
      exact ((alookup_eq_none_iff qs k).mpr this).symm
  | some v =>
      have hmem : (k, v) ∈ qs := hperm.mem_iff.mp (mem_of_alookup_some ps k v h)
      have hndq : (qs.map Prod.fst).Nodup := (hperm.map Prod.fst).nodup_iff.mp hnd
      exact (alookup_some_of_mem qs k v hndq hmem).symm

theorem buildMap_lookup (ps : List (List Char × List Char)) (k : List Char)
    (hnd : (ps.map Prod.fst).Nodup) :
    alookup (buildMap ps) k =
      if k ∈ ps.map Prod.fst then alookup ps k else none := by
  suffices h : ∀ (ps : List (List Char × List Char)) (m : List (List Char × List Char)),
      (ps.map Prod.fst).Nodup →
      alookup (ps.foldl (fun m p => alistInsert m p.1 p.2) m) k =
        if k ∈ ps.map Prod.fst then alookup ps k else alookup m k by
    simpa [buildMap, alookup] using h ps [] hnd
  intro ps
  induction ps with
  | nil => intro m _; simp [alookup]
  | cons p ps ih =>
      intro m hnd
      have hnd' := (List.nodup_cons.mp hnd).2
      have hpni := (List.nodup_cons.mp hnd).1
      simp only [List.foldl_cons]
      rw [ih _ hnd']
      by_cases hk : k ∈ ps.map Prod.fst
      · have : p.1 ≠ k := fun hh => hpni (hh ▸ hk)
        simp [hk, alookup, this]
      · by_cases hpk : p.1 = k
        · simp [hk, alookup, hpk, hpk ▸ alookup_insert_self m p.1 p.2]
        · have hkp : k ≠ p.1 := fun h => hpk h.symm
          simp [hk, alookup, hpk, hkp, alookup_insert_other m p.1 p.2 k hkp]

theorem alookup_append (m₁ m₂ : List (List Char × List Char)) (k : List Char) :
    alookup (m₁ ++ m₂) k =
      match alookup m₁ k with
      | some v => some v
      | none => alookup m₂ k := by
  induction m₁ with
  | nil => simp [alookup]
  | cons p ps ih =>
      by_cases h : p.1 = k
      · simp [alookup, h]
      · simp [alookup, h, ih]

theorem alookup_insertIfAbsent (m : List (List Char × List Char)) (a v k : List Char) :
    alookup (insertIfAbsent m a v) k =
      match alookup m k with
      | some w => some w
      | none => if a = k then some v else none := by
  unfold insertIfAbsent
  by_cases hm : (alookup m a).isSome = true
  · rw [if_pos hm]
    cases h : alookup m k with
    | some w => rfl
    | none =>
        by_cases hak : a = k
        · subst hak
          rw [h] at hm
          simp at hm
        · simp [hak]
  · rw [if_neg hm]
    rw [alookup_append]
    cases h : alookup m k with
    | some w => rfl
    | none => simp [alookup]

theorem alookup_foldl_insertIfAbsent (defs : List (List Char × List Char)) :
    ∀ (m : List (List Char × List Char)) (k : List Char),
    alookup (defs.foldl (fun acc ad => insertIfAbsent acc ad.1 ad.2) m) k =
      match alookup m k with
      | some v => some v
      | none => alookup defs k := by
  induction defs with
  | nil => intro m k; cases h : alookup m k <;> simp [alookup, h]
  | cons d ds ih =>
      intro m k
      simp only [List.foldl_cons]
      rw [ih]
      rw [alookup_insertIfAbsent]
      cases h : alookup m k with
      | some v => rfl
      | none =>
          by_cases hdk : d.1 = k
          · simp [hdk, alookup]
          · simp [hdk, alookup]

theorem alookup_fillDefaults (m : List (List Char × List Char)) (k : List Char) :
    alookup (fillDefaults m) k =
      match alookup m k with
      | some v => some v
      | none => alookup supportedAttributes k :=
  alookup_foldl_insertIfAbsent supportedAttributes m k

/-! ## Sorting and location lemmas -/

theorem insertSorted_perm (x : Loc) (l : List Loc) :
    List.Perm (insertSorted x l) (x :: l) := by
  induction l with
  | nil => exact List.Perm.refl _
  | cons y ys ih =>
      unfold insertSorted
      by_cases h : locLe x y = true
      · simp [h]
      · simp only [h, if_false]
        exact (ih.cons y).trans (List.Perm.swap x y ys)

theorem sortLocs_perm (l : List Loc) : List.Perm (sortLocs l) l := by
  induction l with
  | nil => exact List.Perm.refl _
  | cons x xs ih =>
      exact (insertSorted_perm x (sortLocs xs)).trans (ih.cons x)

theorem located_keys_sublist (input : List Char) (ads : List (List Char × List Char)) :
    List.Sublist
      ((ads.filterMap (fun ad =>
        (locateAttr input ad.1).map (fun pc => (pc.1, ad.1, pc.2)))).map locKey)
      (ads.map Prod.fst) := by
  induction ads with
  | nil => simp
  | cons ad ads ih =>
      cases h : locateAttr input ad.1 with
      | none => simpa [List.filterMap_cons, h] using ih.cons ad.1
      | some pc => simpa [List.filterMap_cons, h, locKey] using ih.cons₂ ad.1

theorem locations_keys_nodup (input : List Char) :
    ((locations input).map locKey).Nodup := by
  have hsub := located_keys_sublist input supportedAttributes
  have hvocab : (supportedAttributes.map Prod.fst).Nodup := by decide
  have hnd := hvocab.sublist hsub
  have hname : nameKey ∉ supportedAttributes.map Prod.fst := by decide
  have hnotin : nameKey ∉
      ((supportedAttributes.filterMap (fun ad =>
        (locateAttr input ad.1).map (fun pc => (pc.1, ad.1, pc.2)))).map locKey) :=
    fun h => hname (hsub.subset h)
  simpa [locations, locKey, List.nodup_cons] using And.intro hnotin hnd

theorem mem_located_keys (input k : List Char)
    (h : k ∈ ((supportedAttributes.filterMap (fun ad =>
        (locateAttr input ad.1).map (fun pc => (pc.1, ad.1, pc.2)))).map locKey)) :
    locateAttr input k ≠ none := by
  rcases List.mem_map.mp h with ⟨l, hl, hkey⟩
  rcases List.mem_filterMap.mp hl with ⟨ad, _, hsome⟩
  rcases Option.map_eq_some'.mp hsome with ⟨pc, hloc, hl'⟩
  subst hl'
  simp only [locKey] at hkey
  subst hkey
  simp [hloc]

/-! ## Segmentation lemmas -/

theorem segmentVals_ok (input : List Char) :
    ∀ locs : List Loc, locsOk input locs →
      segmentVals input locs = some (segmentedPairs input locs)
  | [], _ => rfl
  | [l], h => by
      have h' : l.2.2 ≤ input.length := h
      unfold segmentVals segmentedPairs
      rw [if_pos h']
  | l :: l' :: rest, h => by
      have h1 : l.2.2 ≤ l'.1 ∧ l'.1 ≤ input.length := h.1
      have h2 : locsOk input (l' :: rest) := h.2
      unfold segmentVals segmentedPairs
      rw [if_pos h1, segmentVals_ok input (l' :: rest) h2]
      rfl

theorem segmentedPairs_keys (input : List Char) :
    ∀ locs : List Loc, (segmentedPairs input locs).map Prod.fst = locs.map locKey
  | [] => rfl
  | [l] => rfl
  | l :: l' :: rest => by
      unfold segmentedPairs
      simp only [List.map_cons, locKey]
      rw [segmentedPairs_keys input (l' :: rest)]
      rfl

theorem segmentVals_keys (input : List Char) :
    ∀ (locs : List Loc) (ps : List (List Char × List Char)),
      segmentVals input locs = some ps → ps.map Prod.fst = locs.map locKey
  | [], ps, h => by
      simp only [segmentVals] at h
      cases h
      rfl
  | [l], ps, h => by
      unfold segmentVals at h
      by_cases hc : l.2.2 ≤ input.length
      · rw [if_pos hc] at h
        cases h
        rfl
      · rw [if_neg hc] at h
        cases h
  | l :: l' :: rest, ps, h => by
      unfold segmentVals at h
      by_cases hc : l.2.2 ≤ l'.1 ∧ l'.1 ≤ input.length
      · rw [if_pos hc] at h
        cases htl : segmentVals input (l' :: rest) with
        | none => rw [htl] at h; cases h
        | some tl =>
            rw [htl] at h
            cases h
            simp only [List.map_cons, locKey]
            rw [segmentVals_keys input (l' :: rest) tl htl]
            rfl
      · rw [if_neg hc] at h
        cases h

/-- The central helper: under distinct keys and valid slices, the resolved
mapping assigns every located section exactly its segmented content. -/
theorem resolve_lookup (input : List Char) (locs : List Loc)
    (hnd : (locs.map locKey).Nodup) (hok : locsOk input locs) :
    resolveLocs input locs = some (fillDefaults (buildMap (segmentedPairs input locs))) ∧
    ∀ p ∈ segmentedPairs input locs,
      alookup (fillDefaults (buildMap (segmentedPairs input locs))) p.1 = some p.2 := by
  constructor
  · unfold resolveLocs
    rw [segmentVals_ok input locs hok]
    rfl
  · intro p hp
    have hndp : ((segmentedPairs input locs).map Prod.fst).Nodup := by
      rw [segmentedPairs_keys]; exact hnd
    have hmem : p.1 ∈ (segmentedPairs input locs).map Prod.fst :=
      List.mem_map.mpr ⟨p, hp, rfl⟩
    have hbm : alookup (buildMap (segmentedPairs input locs)) p.1 = some p.2 := by
      rw [buildMap_lookup _ _ hndp, if_pos hmem]
      exact alookup_some_of_mem _ _ _ hndp hp
    rw [alookup_fillDefaults, hbm]

/-! ## First-match lemmas -/

theorem firstMatch_spec (input : List Char) :
    ∀ (vs : List (List Char)) (p c : Nat), firstMatch input vs = some (p, c) →
      ∃ pre v post, vs = pre ++ v :: post ∧ findFrom v input = some p ∧
        c = p + v.length ∧ ∀ v' ∈ pre, findFrom v' input = none := by
  intro vs
  induction vs with
  | nil => intro p c h; simp [firstMatch] at h
  | cons v vs ih =>
      intro p c h
      unfold firstMatch at h
      cases hf : findFrom v input with
      | some q =>
          rw [hf] at h
          cases h
          exact ⟨[], v, vs, rfl, hf, rfl, by simp⟩
      | none =>
          rw [hf] at h
          rcases ih p c h with ⟨pre, v0, post, hvs, hfind, hc, hpre⟩
          refine ⟨v :: pre, v0, post, by rw [hvs]; rfl, hfind, hc, ?_⟩
          intro v' hv'
          rcases List.mem_cons.mp hv' with h' | h'
          · rw [h']; exact hf
          · exact hpre v' h'

/-! ## List index helpers for the ordering claims -/

theorem get?_append_lt {α : Type} :
    ∀ (l₁ l₂ : List α) (i : Nat), i < l₁.length → (l₁ ++ l₂).get? i = l₁.get? i
  | [], _, i, h => absurd h (by simp)
  | _ :: _, _, 0, _ => rfl
  | _ :: l₁, l₂, i + 1, h => get?_append_lt l₁ l₂ i (Nat.lt_of_succ_lt_succ h)

theorem get?_append_len_add {α : Type} :
    ∀ (l₁ l₂ : List α) (i : Nat), (l₁ ++ l₂).get? (l₁.length + i) = l₂.get? i
  | [], l₂, i => by simp
  | a :: l₁, l₂, i => by simpa [Nat.succ_add] using get?_append_len_add l₁ l₂ i

theorem exists_get?_of_mem {α : Type} (a : α) :
    ∀ l : List α, a ∈ l → ∃ i, i < l.length ∧ l.get? i = some a
  | [], h => absurd h (by simp)
  | b :: l, h => by
      rcases List.mem_cons.mp h with h' | h'
      · exact ⟨0, by simp, by simp [h']⟩
      · rcases exists_get?_of_mem a l h' with ⟨i, hi, hg⟩
        exact ⟨i + 1, by simpa using Nat.succ_lt_succ hi, by simpa using hg⟩

theorem get?_map_msg {μ : Type} (mb : List μ) (i : Nat) :
    ((mb.map Event.msg).get? i) = (mb.get? i).map Event.msg := by
  induction mb generalizing i with
  | nil => simp
  | cons m mb ih =>
      cases i with
      | zero => rfl
      | succ i => exact ih i

/-- Normal form of one iteration's event list. -/
theorem loopIteration_eq {μ : Type} (mb : List μ) (kp : Bool) :
    loopIteration mb kp =
      mb.map Event.msg ++
        ((if kp then [Event.stopPoll true, Event.stopHook] else [Event.stopPoll false]) ++
          [Event.tickHook, Event.sleepEv]) := by
  simp [loopIteration, List.append_assoc]

theorem loopIteration_get_msg {μ : Type} (mb : List μ) (kp : Bool) (i : Nat)
    (h : i < mb.length) :
    (loopIteration mb kp).get? i = (mb.get? i).map Event.msg := by
  rw [loopIteration_eq]
  rw [get?_append_lt _ _ i (by simpa using h)]
  exact get?_map_msg mb i

theorem loopIteration_get_stopPoll {μ : Type} (mb : List μ) (kp : Bool) :
    (loopIteration mb kp).get? mb.length = some (Event.stopPoll kp) := by
  rw [loopIteration_eq]
  have : mb.length = (mb.map Event.msg).length + 0 := by simp
  rw [this, get?_append_len_add]
  cases kp <;> rfl

theorem loopIteration_get_stopHook {μ : Type} (mb : List μ) :
    (loopIteration mb true).get? (mb.length + 1) = some Event.stopHook := by
  rw [loopIteration_eq]
  have : mb.length + 1 = (mb.map Event.msg).length + 1 := by simp
  rw [this, get?_append_len_add]
  rfl

theorem loopIteration_get_tick {μ : Type} (mb : List μ) (kp : Bool) :
    (loopIteration mb kp).get? (mb.length + (if kp then 2 else 1)) =
      some Event.tickHook := by
  rw [loopIteration_eq]
  have h : mb.length + (if kp then 2 else 1) =
      (mb.map Event.msg).length + (if kp then 2 else 1) := by simp
  rw [h, get?_append_len_add]
  cases kp <;> rfl

/-! ## Claim theorems -/

/-- C1 (counterexample): with the actor's execution context terminated (the
mailbox receiver dropped), `Handle::send` does **not** succeed silently: the
`unwrap` inside `send` panics (`none`).  This refutes the claim that no
error is surfaced to the sender. -/
theorem c1_counterexample :
    handleSend { queue := ([] : List Nat), receiverAlive := false } 0 = none := rfl

/-- C1 (amended): `Handle::send` enqueues the message and returns normally
exactly while the actor's receiver is alive; once the actor has terminated,
the `unwrap` of the `SendError` panics in the caller. -/
theorem c1_send_semantics {α : Type} (ch : Channel α) (m : α) :
    handleSend ch m =
      if ch.receiverAlive then some { queue := ch.queue ++ [m], receiverAlive := true }
      else none := by
  cases ch with
  | mk q r => cases r <;> rfl

/-- C2 (counterexample): on an input whose `input` section content is empty
after default-filling, the pipeline does not fail at all: it resolves a
mapping with empty `input` content and still produces a generated actor.
There is no `MissingRequiredSection` (or any other) error path in
`actor_internal`. -/
theorem c2_counterexample :
    (parseAttrs exEmptyInput).map (fun m => alookup m (chars "input")) =
        some (some []) ∧
      (actorInternal exEmptyInput).isSome = true := by
  constructor
  · decide
  · decide

/-- C2 (amended): the translation pipeline performs no required-section
check: whenever segmentation succeeds it unconditionally generates an actor
definition from the resolved mapping, also when the `input` or `on_message`
content is empty. -/
theorem c2_no_required_section_check (input : List Char)
    (m : List (List Char × List Char)) (h : parseAttrs input = some m) :
    actorInternal input = some (generate m) := by
  simp [actorInternal, h]

/-- C2 (witness). -/
theorem c2_witness :
    actorInternal exEmptyInput = some (generate ((parseAttrs exEmptyInput).getD [])) :=
  c2_no_required_section_check exEmptyInput ((parseAttrs exEmptyInput).getD [])
    (by decide)

/-- C3 (counterexample): in an iteration in which the stop-signal check
succeeds (`kp = true`, so `stopPoll true` and the `on_stop` hook are among
the events), the `on_tick` hook still runs — the generated loop has no
`else` between the kill check and the tick block.  This refutes the claim
that `on_tick` never executes in an iteration observing a stop request. -/
theorem c3_counterexample :
    Event.stopPoll true ∈ loopIteration ([] : List Nat) true ∧
      Event.stopHook ∈ loopIteration ([] : List Nat) true ∧
      Event.tickHook ∈ loopIteration ([] : List Nat) true := by
  decide

/-- C3 (amended): in every iteration in which the stop check succeeds, the
loop runs `on_stop` and then still runs `on_tick` (followed by the sleep):
the tick is not skipped, it runs after the stop hook. -/
theorem c3_tick_runs_in_stop_iteration {μ : Type} (mb : List μ) :
    loopIteration mb true =
      mb.map Event.msg ++
        [Event.stopPoll true, Event.stopHook, Event.tickHook, Event.sleepEv] := by
  simp [loopIteration, List.append_assoc]

/-- C8: within one iteration, every drained mailbox message is dispatched
strictly before the tick hook, and the stop poll (plus the `on_stop` hook it
triggers) happens after the message drain and before the tick hook. -/
theorem c8_iteration_ordering {μ : Type} (mb : List μ) (kp : Bool) :
    (∀ m, m ∈ mb → eventBefore (loopIteration mb kp) (Event.msg m) (Event.stopPoll kp)) ∧
    (∀ m, m ∈ mb → eventBefore (loopIteration mb kp) (Event.msg m) Event.tickHook) ∧
    eventBefore (loopIteration mb kp) (Event.stopPoll kp) Event.tickHook ∧
    (kp = true → eventBefore (loopIteration mb kp) Event.stopHook Event.tickHook) := by
  refine ⟨?_, ?_, ?_, ?_⟩
  · intro m hm
    rcases exists_get?_of_mem m mb hm with ⟨i, hi, hg⟩
    exact ⟨i, mb.length, hi,
      by rw [loopIteration_get_msg mb kp i hi, hg]; rfl,
      loopIteration_get_stopPoll mb kp⟩
  · intro m hm
    rcases exists_get?_of_mem m mb hm with ⟨i, hi, hg⟩
    refine ⟨i, mb.length + (if kp then 2 else 1), ?_, ?_, loopIteration_get_tick mb kp⟩
    · exact Nat.lt_of_lt_of_le hi (Nat.le_add_right _ _)
    · rw [loopIteration_get_msg mb kp i hi, hg]; rfl
  · refine ⟨mb.length, mb.length + (if kp then 2 else 1), ?_,
      loopIteration_get_stopPoll mb kp, loopIteration_get_tick mb kp⟩
    cases kp <;> simp
  · intro hkp
    subst hkp
    refine ⟨mb.length + 1, mb.length + 2, by omega,
      loopIteration_get_stopHook mb, ?_⟩
    exact loopIteration_get_tick mb true

/-- C8 (witness): the ordering facts at a concrete iteration draining the
messages `[0, 1]` with a pending stop request. -/
theorem c8_witness :
    eventBefore (loopIteration [0, 1] true) (Event.msg 0) (Event.stopPoll true) ∧
      eventBefore (loopIteration [0, 1] true) (Event.msg 1) Event.tickHook ∧
      eventBefore (loopIteration [0, 1] true) (Event.stopPoll true) Event.tickHook ∧
      eventBefore (loopIteration [0, 1] true) Event.stopHook Event.tickHook :=
  ⟨(c8_iteration_ordering [0, 1] true).1 0 (by decide),
   (c8_iteration_ordering [0, 1] true).2.1 1 (by decide),
   (c8_iteration_ordering [0, 1] true).2.2.1,
   (c8_iteration_ordering [0, 1] true).2.2.2 rfl⟩

/-- C4 (counterexample): the resolved `name` is the whole leading segment up
to the first located delimiter, not the first whitespace-delimited token:
on `"A B input : …"` the code resolves `name = "A B"` while the first
token is `"A"`. -/
theorem c4_counterexample :
    (parseAttrs exNameTwoTokens).map (fun m => alookup m nameKey) =
        some (some (chars "A B")) ∧
      specFirstToken exNameTwoTokens = chars "A" ∧
      chars "A B" ≠ chars "A" := by
  refine ⟨by decide, by decide, by decide⟩

/-- C4 (amended): the `name` entry of the resolved mapping is the substring
of the input from offset 0 to the start offset of the earliest located
keyword section (the whole input when no keyword is located).  It equals
the first whitespace-delimited token only when a keyword delimiter
immediately follows that token, as in the spec's scenario. -/
theorem c4_name_leading_segment (input : List Char) (rest : List Loc)
    (hsort : sortLocs (locations input) = (0, nameKey, 0) :: rest)
    (hok : locsOk input ((0, nameKey, 0) :: rest)) :
    ∃ M, parseAttrs input = some M ∧ alookup M nameKey = some (nameValue input rest) := by
  have hnd : (((0, nameKey, 0) :: rest).map locKey).Nodup := by
    rw [← hsort]
    exact ((sortLocs_perm (locations input)).map locKey).nodup_iff.mpr
      (locations_keys_nodup input)
  obtain ⟨hres, hall⟩ := resolve_lookup input ((0, nameKey, 0) :: rest) hnd hok
  refine ⟨fillDefaults (buildMap (segmentedPairs input ((0, nameKey, 0) :: rest))), ?_, ?_⟩
  · unfold parseAttrs
    rw [hsort]
    exact hres
  · cases rest with
    | nil =>
        have := hall (nameKey, input.drop 0) (by simp [segmentedPairs])
        simpa [nameValue] using this
    | cons r rs =>
        have hm : (nameKey, extractSeg input 0 r.1) ∈
            segmentedPairs input ((0, nameKey, 0) :: r :: rs) := by
          simp [segmentedPairs]
        have := hall _ hm
        simpa [nameValue, extractSeg] using this

/-- C4 (witness): on the spec's scenario input (token-stream rendering of
`"A input: Ping, on_message: Ping => noop,"`) the resolved name is exactly
`"A"`. -/
theorem c4_witness :
    ∃ M, parseAttrs exScenario = some M ∧ alookup M nameKey = some (chars "A") := by
  obtain ⟨M, h1, h2⟩ := c4_name_leading_segment exScenario
    [(1, chars "input", 10), (16, chars "on_message", 30)] (by decide) (by decide)
  exact ⟨M, h1, h2.trans (by decide)⟩

/-- C5: for every input and every sorted, duplicate-free, slice-valid list
of located sections, the resolved mapping assigns each section's keyword
exactly the text from its content-start offset to the next section's start
offset, the last section extending to end-of-input (these contents are the
`segmentedPairs`). -/
theorem c5_segmentation (input : List Char) (locs : List Loc)
    (_hsorted : sortedByStart locs)
    (hnd : (locs.map locKey).Nodup) (hok : locsOk input locs) :
    ∃ M, resolveLocs input locs = some M ∧
      ∀ p ∈ segmentedPairs input locs, alookup M p.1 = some p.2 := by
  obtain ⟨h1, h2⟩ := resolve_lookup input locs hnd hok
  exact ⟨_, h1, h2⟩

/-- C5 (witness): the segmentation property at the minimal concrete input,
with the location list the pipeline itself computes. -/
theorem c5_witness :
    ∃ M, resolveLocs exMinimal (sortLocs (locations exMinimal)) = some M ∧
      ∀ p ∈ segmentedPairs exMinimal (sortLocs (locations exMinimal)),
        alookup M p.1 = some p.2 :=
  c5_segmentation exMinimal (sortLocs (locations exMinimal))
    (by decide) (by decide) (by decide)

/-- C6: when no optional keyword section is located in the input (the input
contains only `name`, `input` and `on_message` sections), every optional
keyword resolves to its documented default: the empty string except
`tick_interval = "100"`, `spawner = "std::thread::spawn"` and
`spawner_return_type = "std::thread::JoinHandle<()>"`. -/
theorem c6_defaults (input : List Char) (m : List (List Char × List Char))
    (habsent : ∀ k ∈ optionalAttrKeys, locateAttr input k = none)
    (hparse : parseAttrs input = some m) :
    alookup m (chars "public_visibility") = some [] ∧
    alookup m (chars "docs") = some [] ∧
    alookup m (chars "input_derive") = some [] ∧
    alookup m (chars "data") = some [] ∧
    alookup m (chars "on_init") = some [] ∧
    alookup m (chars "on_tick") = some [] ∧
    alookup m (chars "on_stop") = some [] ∧
    alookup m (chars "custom_code") = some [] ∧
    alookup m (chars "tick_interval") = some (chars "100") ∧
    alookup m (chars "spawner") = some (chars "std::thread::spawn") ∧
    alookup m (chars "spawner_return_type") =
      some (chars "std::thread::JoinHandle<()>") := by
  unfold parseAttrs resolveLocs at hparse
  cases hseg : segmentVals input (sortLocs (locations input)) with
  | none => rw [hseg] at hparse; cases hparse
  | some ps =>
      rw [hseg] at hparse
      have hm : fillDefaults (buildMap ps) = m := by
        simpa using hparse
      have hkeys := segmentVals_keys input _ ps hseg
      have hndloc : ((sortLocs (locations input)).map locKey).Nodup :=
        ((sortLocs_perm (locations input)).map locKey).nodup_iff.mpr
          (locations_keys_nodup input)
      have hndps : (ps.map Prod.fst).Nodup := by rw [hkeys]; exact hndloc
      have hneq : ∀ x ∈ optionalAttrKeys, x ≠ nameKey := by decide
      have main : ∀ k ∈ optionalAttrKeys,
          alookup m k = alookup supportedAttributes k := by
        intro k hk
        have hnotmem : k ∉ ps.map Prod.fst := by
          rw [hkeys]
          intro hmem
          have hmem2 : k ∈ (locations input).map locKey :=
            ((sortLocs_perm (locations input)).map locKey).mem_iff.mp hmem
          have hcons : (locations input).map locKey =
              nameKey :: ((supportedAttributes.filterMap (fun ad =>
                (locateAttr input ad.1).map (fun pc => (pc.1, ad.1, pc.2)))).map locKey) :=
            rfl
          rcases List.mem_cons.mp (hcons ▸ hmem2) with h | h
          · exact hneq k hk h
          · exact mem_located_keys input k h (habsent k hk)
        have hbm : alookup (buildMap ps) k = none := by
          rw [buildMap_lookup ps k hndps, if_neg hnotmem]
        rw [← hm, alookup_fillDefaults, hbm]
      refine ⟨(main _ (by decide)).trans (by decide), (main _ (by decide)).trans (by decide),
        (main _ (by decide)).trans (by decide), (main _ (by decide)).trans (by decide),
        (main _ (by decide)).trans (by decide), (main _ (by decide)).trans (by decide),
        (main _ (by decide)).trans (by decide), (main _ (by decide)).trans (by decide),
        (main _ (by decide)).trans (by decide), (main _ (by decide)).trans (by decide),
        (main _ (by decide)).trans (by decide)⟩

/-- C6 (witness): all defaults at the minimal concrete input containing only
`name`, `input` and `on_message`. -/
theorem c6_witness :
    alookup ((parseAttrs exMinimal).getD []) (chars "tick_interval") =
        some (chars "100") ∧
      alookup ((parseAttrs exMinimal).getD []) (chars "spawner") =
        some (chars "std::thread::spawn") ∧
      alookup ((parseAttrs exMinimal).getD []) (chars "public_visibility") = some [] := by
  have h := c6_defaults exMinimal ((parseAttrs exMinimal).getD [])
    (by decide) (by decide)
  exact ⟨h.2.2.2.2.2.2.2.2.1, h.2.2.2.2.2.2.2.2.2.1, h.1⟩

/-- C7: order-independence of the attribute mapping — if two inputs segment
to the same sections with the same contents (as multisets of
keyword-content pairs), their resolved mappings agree on every key. -/
theorem c7_order_independence (I₁ I₂ : List Char)
    (P₁ P₂ : List (List Char × List Char))
    (h₁ : segmentVals I₁ (sortLocs (locations I₁)) = some P₁)
    (h₂ : segmentVals I₂ (sortLocs (locations I₂)) = some P₂)
    (hperm : List.Perm P₁ P₂) (hnd : (P₁.map Prod.fst).Nodup) :
    ∀ k, (parseAttrs I₁).map (fun m => alookup m k) =
      (parseAttrs I₂).map (fun m => alookup m k) := by
  intro k
  unfold parseAttrs resolveLocs
  rw [h₁, h₂]
  have hnd₂ : (P₂.map Prod.fst).Nodup := (hperm.map Prod.fst).nodup_iff.mp hnd
  have hbm : alookup (buildMap P₁) k = alookup (buildMap P₂) k := by
    rw [buildMap_lookup P₁ k hnd, buildMap_lookup P₂ k hnd₂]
    have hmemiff : (k ∈ P₁.map Prod.fst) ↔ (k ∈ P₂.map Prod.fst) :=
      (hperm.map Prod.fst).mem_iff
    by_cases hmem : k ∈ P₁.map Prod.fst
    · rw [if_pos hmem, if_pos (hmemiff.mp hmem)]
      exact alookup_perm P₁ P₂ k hperm hnd
    · rw [if_neg hmem, if_neg (fun h => hmem (hmemiff.mpr h))]
  simp only [Option.map_some']
  rw [alookup_fillDefaults, alookup_fillDefaults, hbm]

/-- C7 (witness): the same three sections listed in two different orders
resolve to the same mapping (checked here on the `data` key). -/
theorem c7_witness :
    (parseAttrs exOrder1).map (fun m => alookup m (chars "data")) =
      (parseAttrs exOrder2).map (fun m => alookup m (chars "data")) :=
  c7_order_independence exOrder1 exOrder2
    ((segmentVals exOrder1 (sortLocs (locations exOrder1))).getD [])
    ((segmentVals exOrder2 (sortLocs (locations exOrder2))).getD [])
    (by decide) (by decide) (by decide) (by decide) (chars "data")

/-- C9 (counterexample): the recorded location of a keyword is **not** the
earliest offset among all accepted pattern variants: on `exVariantOrder`
the `input` keyword is located at offset 11 (the first occurrence of
variant 1, `"\ninput :\n"`), although variant 4 (`" input : "`) occurs
earlier, at offset 1. -/
theorem c9_counterexample :
    locateAttr exVariantOrder (chars "input") = some (11, 20) ∧
      earliestMatchPos exVariantOrder (searchStrings (chars "input")) = some 1 ∧
      (11 : Nat) ≠ 1 := by
  refine ⟨by decide, by decide, by decide⟩

/-- C9 (amended): at most one located section exists per keyword (the
location keys are duplicate-free), and the recorded location is the first
occurrence of the **first pattern variant, in the fixed variant-list
order**, that occurs anywhere in the input — all variants earlier in the
list occur nowhere in the input. -/
theorem c9_first_variant_wins :
    (∀ input : List Char, ((locations input).map locKey).Nodup) ∧
      (∀ (input attr : List Char) (p c : Nat), locateAttr input attr = some (p, c) →
        ∃ pre v post, searchStrings attr = pre ++ v :: post ∧
          findFrom v input = some p ∧ c = p + v.length ∧
          ∀ v' ∈ pre, findFrom v' input = none) :=
  ⟨locations_keys_nodup,
   fun input attr p c h => firstMatch_spec input (searchStrings attr) p c h⟩

/-- C9 (witness): the characterization applied at the concrete input. -/
theorem c9_witness :
    ∃ pre v post, searchStrings (chars "input") = pre ++ v :: post ∧
      findFrom v exVariantOrder = some 11 ∧ 20 = 11 + v.length ∧
      ∀ v' ∈ pre, findFrom v' exVariantOrder = none :=
  c9_first_variant_wins.2 exVariantOrder (chars "input") 11 20 (by decide)

/-- C10: the generated module is public exactly when the resolved
`public_visibility` content contains the substring `"true"` anywhere;
content `"untrue"` yields a public module, `"false"` and the empty default
yield a private one. -/
theorem c10_public_visibility (input : List Char) (m : List (List Char × List Char))
    (_h : parseAttrs input = some m) :
    (moduleIsPublic (generate m) = containsSub (alookupD m pvKey) trueLit) ∧
      (actorInternal exUntrue).map moduleIsPublic = some true ∧
      (actorInternal exFalse).map moduleIsPublic = some false ∧
      (actorInternal exPvTrue).map moduleIsPublic = some true ∧
      (actorInternal exMinimal).map moduleIsPublic = some false := by
  refine ⟨?_, by decide, by decide, by decide, by decide⟩
  show (publicVisibilityStr m == chars "pub") = containsSub (alookupD m pvKey) trueLit
  unfold publicVisibilityStr
  cases hc : containsSub (alookupD m pvKey) trueLit with
  | true => decide
  | false => decide

/-- C10 (witness). -/
theorem c10_witness :
    moduleIsPublic (generate ((parseAttrs exPvTrue).getD [])) =
      containsSub (alookupD ((parseAttrs exPvTrue).getD []) pvKey) trueLit :=
  (c10_public_visibility exPvTrue ((parseAttrs exPvTrue).getD []) (by decide)).1

end Movie
